import Mathlib

/-!
Verification development for the Socializer turn-orchestration core.

This file gives a shallow embedding, in Lean 4, of the turn-controller /
tool-dispatch loop of the Socializer repository and proves or refutes the
frozen specification claims about it.  The embedded functions mirror, item
by item, the Python source:

* `src/ai_chatagent.py`
  - `BasicToolNode.__call__`               (tool executor, per-call isolation)
  - `AiChatagent.chatbot`                  (duplicate / loop guard phases)
  - `AiChatagent.build_graph`              (chatbot -> tools -> chatbot loop)
* `src/app/chat_agent.py`
  - `ChatState.add_message`                (conversation window cap)
* `src/tools/gemini/response_handler.py`
  - `GeminiResponseHandler.is_empty_response`, `format_tool_result`,
    `generate_fallback`, `extract_tool_result_from_messages`,
    `create_response_with_fallback`        (result formatter, fallback)

Modelling conventions: Python dicts of tool-call arguments are modelled as
insertion-ordered association lists `List (String × String)` (argument
values are strings); `str(args)` is modelled by `pyArgsStr`, which, like
CPython, serializes entries in insertion order.  Heterogeneous tool results
are modelled by the inductive `PyVal`.  The language-model invocation is an
external collaborator and enters the embedding as an explicit `response`
argument (the message it returned).
-/

namespace Socializer

/-- Message roles of the conversation window.  `user` corresponds to
LangChain `HumanMessage` (`type = "human"`), `assistant` to `AIMessage`,
`tool` to `ToolMessage`. -/
inductive Role where
  | system
  | user
  | assistant
  | tool
deriving DecidableEq, Repr

/-- A capability invocation request, mirroring a LangChain tool-call dict
`\x7b"name": ..., "args": ..., "id": ...\x7d`.  Arguments are an
insertion-ordered key-to-value map. -/
structure ToolCall where
  name : String
  args : List (String × String)
  id : String
deriving DecidableEq, Repr

/-- A message of the conversation window.  `name` and `callId` are only
meaningful on tool messages (LangChain `ToolMessage.name` and
`ToolMessage.tool_call_id`); they are empty strings elsewhere. -/
structure Msg where
  role : Role
  content : String
  toolCalls : List ToolCall
  name : String
  callId : String
deriving DecidableEq, Repr

/-- Python `str` of an argument dict, e.g. `str({'query': 'x'})`:
entries rendered in insertion order, keys and values quoted.  This is the
canonical-argument string the duplicate guard compares
(`str(tool_args)` at `ai_chatagent.py:1296/1353/1371/1685/1712`). -/
def pyArgsStr (args : List (String × String)) : String :=
  "\x7b" ++ String.intercalate ", "
    (args.map fun kv => "'" ++ kv.1 ++ "': '" ++ kv.2 ++ "'") ++ "\x7d"

/-- The guard's call signature `(tool_name, str(tool_args))`
(`ai_chatagent.py:1353,1685,1712`).  The call id is not part of it. -/
def sig (tc : ToolCall) : String × String :=
  (tc.name, pyArgsStr tc.args)

end Socializer

namespace Socializer

/-! Embedding of `src/tools/gemini/response_handler.py`. -/

/-- Python values carried by tool results, as consumed by
`GeminiResponseHandler.format_tool_result`. -/
inductive PyVal where
  | str : String → PyVal
  | int : Int → PyVal
  | dict : List (String × PyVal) → PyVal
  | list : List PyVal → PyVal

mutual

/-- Python `repr` of a value (the form used inside `str` of a container). -/
def pyRepr : PyVal → String
  | .str s => "'" ++ s ++ "'"
  | .int n => toString n
  | .dict entries => "\x7b" ++ pyReprEntries entries ++ "\x7d"
  | .list items => "[" ++ pyReprItems items ++ "]"

/-- Comma-joined `repr` of dict entries. -/
def pyReprEntries : List (String × PyVal) → String
  | [] => ""
  | [kv] => "'" ++ kv.1 ++ "': " ++ pyRepr kv.2
  | kv :: rest => "'" ++ kv.1 ++ "': " ++ pyRepr kv.2 ++ ", " ++ pyReprEntries rest

/-- Comma-joined `repr` of list items. -/
def pyReprItems : List PyVal → String
  | [] => ""
  | [v] => pyRepr v
  | v :: rest => pyRepr v ++ ", " ++ pyReprItems rest

end

/-- Python `str` of a value: a bare string for `str`, `repr` otherwise. -/
def pyValStr : PyVal → String
  | .str s => s
  | v => pyRepr v

/-- Python truthiness of a value. -/
def pyTruthy : PyVal → Bool
  | .str s => s ≠ ""
  | .int n => n ≠ 0
  | .dict entries => !entries.isEmpty
  | .list items => !items.isEmpty

/-- Python `k in d` on a result dict. -/
def hasKey (k : String) (entries : List (String × PyVal)) : Bool :=
  entries.any (fun kv => kv.1 == k)

/-- Python `d[k]` / `d.get(k)` on a result dict (keys are unique in a
Python dict, so the first match is the binding). -/
def findVal (entries : List (String × PyVal)) (k : String) : Option PyVal :=
  (entries.find? (fun kv => kv.1 == k)).map (·.2)

/-- The rendered value of `tool_result.get('error', 'Unknown error')`. -/
def errValueStr (entries : List (String × PyVal)) : String :=
  match findVal entries "error" with
  | some v => pyValStr v
  | none => "Unknown error"

/-- Embeds `GeminiResponseHandler._format_skill_evaluation`
(`response_handler.py:253-277`). -/
def format_skill_evaluation (entries : List (String × PyVal)) : String :=
  let parts : List String :=
    (match findVal entries "message" with
     | some v => if pyTruthy v then [pyValStr v] else []
     | none => [])
    ++
    (match findVal entries "current_skills" with
     | some (.dict skills) =>
        if !skills.isEmpty then
          "\n📊 Current Skill Levels:" ::
            skills.map (fun kv => "  • " ++ kv.1 ++ ": " ++ pyValStr kv.2 ++ "/100")
        else []
     | _ => [])
    ++
    (match findVal entries "suggestions" with
     | some (.list items) =>
        if !items.isEmpty then
          "\n💡 Suggestions:" :: (items.take 3).map (fun s => "  • " ++ pyValStr s)
        else []
     | _ => [])
    ++
    (match findVal entries "latest_research" with
     | some (.dict lr) =>
        if !lr.isEmpty then
          ["\n🔬 Based on latest " ++
            (match findVal lr "year" with
             | some y => pyValStr y
             | none => "2025") ++ " research"]
        else []
     | _ => [])
  if !parts.isEmpty then String.intercalate "\n" parts
  else pyValStr (.dict entries)

/-- Embeds `GeminiResponseHandler._format_dict`
(`response_handler.py:279-297`): first five entries as bullets, long
values truncated at 100 characters, a trailing "more fields" line. -/
def format_dict (entries : List (String × PyVal)) (tool_name : String) : String :=
  if entries.isEmpty then "No data from " ++ tool_name
  else
    let bullets := (entries.take 5).map fun kv =>
      let valueStr := pyValStr kv.2
      let valueStr := if 100 < valueStr.length then valueStr.take 100 ++ "..." else valueStr
      "  • " ++ kv.1 ++ ": " ++ valueStr
    let parts := ("Results from " ++ tool_name ++ ":") :: bullets ++
      (if 5 < entries.length then
        ["  ... and " ++ toString (entries.length - 5) ++ " more fields"]
       else [])
    String.intercalate "\n" parts

/-- Embeds `GeminiResponseHandler._format_data`
(`response_handler.py:158-181`). -/
def format_data (data : PyVal) (tool_name : String) : String :=
  match data with
  | .dict entries =>
    "Results from " ++ tool_name ++ ":\n" ++
      String.intercalate "\n"
        ((entries.take 5).map fun kv => "- " ++ kv.1 ++ ": " ++ pyValStr kv.2)
  | v => pyValStr v

/-- Embeds `GeminiResponseHandler.format_tool_result`
(`response_handler.py:100-156`).  Branch order follows the source: error
entry, data entry, skill-evaluator renderer, status/message pair, generic
dict rendering; then string, list and stringify fallbacks. -/
def format_tool_result (tool_result : PyVal) (tool_name : String) : String :=
  match tool_result with
  | .dict entries =>
    if hasKey "error" entries then
      "Error from " ++ tool_name ++ ": " ++ errValueStr entries
    else if hasKey "data" entries then
      format_data ((findVal entries "data").getD (.str "")) tool_name
    else if tool_name == "skill_evaluator" then
      format_skill_evaluation entries
    else if hasKey "status" entries && hasKey "message" entries then
      let base := "[" ++ (pyValStr ((findVal entries "status").getD (.str ""))).toUpper ++ "] "
        ++ pyValStr ((findVal entries "message").getD (.str ""))
      let base := match findVal entries "skill_scores" with
        | some v => base ++ "\n\nSkill Scores: " ++ pyValStr v
        | none => base
      match findVal entries "suggestions" with
      | some (.list items) =>
        if !items.isEmpty then
          base ++ "\n\nSuggestions:\n" ++
            String.intercalate "\n" ((items.take 3).map fun s => "- " ++ pyValStr s)
        else base
      | _ => base
    else format_dict entries tool_name
  | .str s => s
  | .list items =>
    if items.isEmpty then "No results from " ++ tool_name
    else "Results from " ++ tool_name ++ ":\n" ++
      String.intercalate "\n" ((items.take 5).map pyValStr)
  | v => pyValStr v

end Socializer

namespace Socializer

/-- The patterns `GeminiResponseHandler.EMPTY_PATTERNS`
(`response_handler.py:41`). -/
def EMPTY_PATTERNS : List String :=
  ["", "```", "\n```", "`", "\n", " "]

/-- Python `str.strip()`: drop whitespace from both ends. -/
def pyStrip (s : String) : String :=
  String.mk (((s.data.dropWhile Char.isWhitespace).reverse.dropWhile
    Char.isWhitespace).reverse)

/-- Embeds `GeminiResponseHandler.is_empty_response`
(`response_handler.py:47-77`).  The check reads only the textual content
of the message: empty, stripped content among the empty patterns, or
whitespace-only.  (The initial `if not response` object-truthiness test of
the source is always false for a LangChain message object.) -/
def is_empty_response (response : Msg) : Bool :=
  let content := response.content
  if content = "" then true
  else if EMPTY_PATTERNS.contains (pyStrip content) then true
  else if pyStrip content = "" then true
  else false

/-- Backward scan of `extract_tool_result_from_messages`
(`response_handler.py:236-251`): first tool message yields
`(some content, name)`; a message carrying call requests yields
`(none, first call's name)`; otherwise keep scanning. -/
def extractScan : List Msg → Option (Option String × String)
  | [] => none
  | m :: rest =>
    if m.role = .tool then some (some m.content, m.name)
    else
      match m.toolCalls with
      | tc :: _ => some (none, tc.name)
      | [] => extractScan rest

/-- Embeds `GeminiResponseHandler.extract_tool_result_from_messages`
(`response_handler.py:216-251`): scan the last `look_back` messages in
reverse order. -/
def extract_tool_result_from_messages (messages : List Msg) (look_back : Nat := 3) :
    Option (Option String × String) :=
  extractScan (messages.drop (messages.length - look_back)).reverse

/-- The generic apology of `generate_fallback` (`response_handler.py:209-212`). -/
def apologyText : String :=
  "I apologize, but I'm having trouble generating a response. " ++
  "Could you please rephrase your question or try asking something else?"

/-- An assistant message with plain content and no call requests, as built
by `AIMessage(content=...)`. -/
def aiMsg (content : String) : Msg :=
  { role := .assistant, content := content, toolCalls := [], name := "", callId := "" }

/-- Embeds `GeminiResponseHandler.generate_fallback`
(`response_handler.py:183-214`), including the Python truthiness tests of
`tool_result` and `tool_name`. -/
def generate_fallback (tool_result : Option String) (tool_name : Option String) : Msg :=
  let resultTruthy := match tool_result with
    | some r => r ≠ ""
    | none => false
  let nameTruthy := match tool_name with
    | some n => n ≠ ""
    | none => false
  if resultTruthy && nameTruthy then
    aiMsg ("Based on the " ++ tool_name.getD "" ++ " results:\n\n" ++
      format_tool_result (.str (tool_result.getD "")) (tool_name.getD ""))
  else if resultTruthy = true then
    aiMsg ("Based on the information I found:\n\n" ++ (tool_result.getD "").take 500)
  else
    aiMsg apologyText

/-- Embeds `GeminiResponseHandler.create_response_with_fallback`
(`response_handler.py:299-335`): pass the response through when it is not
degenerate; otherwise synthesize a fallback from the scanned tool result,
falling back to the generic apology when the scan yields nothing usable. -/
def create_response_with_fallback (response : Msg) (messages : List Msg) : Msg :=
  if !is_empty_response response then response
  else
    match extract_tool_result_from_messages messages with
    | some (toolResult, toolName) =>
      match toolResult with
      | some r =>
        if r ≠ "" then generate_fallback (some r) (some toolName)
        else generate_fallback none none
      | none => generate_fallback none none
    | none => generate_fallback none none

/-- Drops a leading pattern from a character list, if present. -/
def stripLead : List Char → List Char → Option (List Char)
  | [], l => some l
  | _ :: _, [] => none
  | p :: ps, c :: cs => if p = c then stripLead ps cs else none

/-- Splits a character list at the first occurrence of `": "`. -/
def splitAtColonSpace : List Char → Option (List Char × List Char)
  | [] => none
  | ':' :: ' ' :: rest => some ([], rest)
  | c :: rest =>
    match splitAtColonSpace rest with
    | some pr => some (c :: pr.1, pr.2)
    | none => none

/-- Re-extraction of the capability name and error message from a rendered
error line `"Error from NAME: MESSAGE"`. -/
def extractErrorParts (s : String) : Option (String × String) :=
  match stripLead "Error from ".data s.data with
  | none => none
  | some rest =>
    match splitAtColonSpace rest with
    | some pr => some (String.mk pr.1, String.mk pr.2)
    | none => none

end Socializer

namespace Socializer

/-! Embedding of `ChatState.add_message` (`src/app/chat_agent.py:42-51`). -/

/-- A conversation-window entry as stored by `ChatState`: a dict with
`role`, `content` and `timestamp` keys.  The timestamp
(`datetime.now().isoformat()`) is passed in explicitly. -/
structure ChatStateMsg where
  role : String
  content : String
  timestamp : String
deriving DecidableEq, Repr

/-- Embeds `ChatState.add_message`: append the new entry, then, when the
window exceeds 20 entries, keep only the last 20 (`messages[-20:]`). -/
def add_message (messages : List ChatStateMsg) (role content timestamp : String) :
    List ChatStateMsg :=
  let appended := messages ++ [⟨role, content, timestamp⟩]
  if 20 < appended.length then appended.drop (appended.length - 20) else appended

end Socializer

namespace Socializer

/-! Embedding of `BasicToolNode.__call__` (`src/ai_chatagent.py:936-1003`). -/

/-- The value passed to a capability handler: `tavily_search` receives the
bare query string, other tools receive the argument dict
(`ai_chatagent.py:962-977`). -/
inductive PyInput where
  | str : String → PyInput
  | dict : List (String × String) → PyInput

/-- A capability handler: `tool.invoke(...)` either returns a result
(already rendered to text by the external `ResponseFormatter`) or raises,
modelled as `Except`. -/
def Handler := PyInput → Except String String

/-- The tool registry `tools_by_name` built by `BasicToolNode.__init__`. -/
def Registry := List (String × Handler)

/-- Looks a handler up by capability name. -/
def regLookup (reg : Registry) (name : String) : Option Handler :=
  (reg.find? (fun e => e.1 == name)).map (·.2)

/-- Python rendering of `list(self.tools_by_name.keys())`. -/
def availableToolsStr (reg : Registry) : String :=
  "[" ++ String.intercalate ", " (reg.map (fun e => "'" ++ e.1 ++ "'")) ++ "]"

/-- Rendering of `json.dumps(\x7b"error": msg\x7d)` (escaping elided). -/
def jsonError (msg : String) : String :=
  "\x7b\"error\": \"" ++ msg ++ "\"\x7d"

/-- A `ToolMessage(content=..., name=..., tool_call_id=...)`. -/
def toolMsg (content name callId : String) : Msg :=
  { role := .tool, content := content, toolCalls := [], name := name, callId := callId }

/-- The value handed to the handler (`ai_chatagent.py:962-977`):
`tavily_search` with a `query` argument receives the bare query string,
every other call receives its argument dict. -/
def handlerInput (tc : ToolCall) : PyInput :=
  if tc.name == "tavily_search" then
    match tc.args.find? (fun kv => kv.1 == "query") with
    | some kv => PyInput.str kv.2
    | none => PyInput.dict tc.args
  else PyInput.dict tc.args

/-- Dispatch of one call request by `BasicToolNode.__call__`
(`ai_chatagent.py:946-1001`).  `fmt` stands for the external
`ResponseFormatter.format_tool_result` plus `clean_response` pipeline
applied to a successful raw result (its module is not part of the dispatch
logic).  An unknown capability or a raising handler yields a `ToolMessage`
whose content is a JSON error object; every path yields exactly one
message for the call. -/
def runToolCall (fmt : String → String) (reg : Registry) (tc : ToolCall) : Msg :=
  match regLookup reg tc.name with
  | none =>
    toolMsg
      (jsonError ("Tool '" ++ tc.name ++ "' not found. Available tools: " ++
        availableToolsStr reg))
      tc.name tc.id
  | some h =>
    match h (handlerInput tc) with
    | .ok r => toolMsg (fmt r) tc.name tc.id
    | .error e =>
      toolMsg (jsonError ("Error calling tool " ++ tc.name ++ ": " ++ e)) tc.name tc.id

/-- The batch of result messages produced for the last message's call
requests, in request order (`outputs.append` per iteration). -/
def tool_node_outputs (fmt : String → String) (reg : Registry) (message : Msg) : List Msg :=
  message.toolCalls.map (runToolCall fmt reg)

/-- Embeds `BasicToolNode.__call__` on an input message list: `none` models
the `ValueError` raised on an empty input; with no call requests on the
last message the batch is empty. -/
def tool_node (fmt : String → String) (reg : Registry) (messages : List Msg) :
    Option (List Msg) :=
  messages.getLast?.map (tool_node_outputs fmt reg)

end Socializer

namespace Socializer

/-! Embedding of the guard phases of `AiChatagent.chatbot`
(`src/ai_chatagent.py:1242-1810`) and of the graph loop built by
`AiChatagent.build_graph` (`src/ai_chatagent.py:1880-1908`). -/

/-- The exemption set of the entry loop check (`ai_chatagent.py:1307`). -/
def NEVER_LOOP_BLOCK : List String := ["format_output", "clarify_communication"]

/-- The exemption set of the post-response duplicate check
(`ai_chatagent.py:1664-1667`). -/
def NEVER_BLOCK_TOOLS : List String := ["format_output", "clarify_communication"]

/-- The suffix of the window starting at the most recent `user` message
(`messages[last_human_index:]` after the backward scan at
`ai_chatagent.py:1283-1286` / `1671-1675`); `none` when no user message
is present (`last_human_index == -1`). -/
def scopeAfterLastHuman : List Msg → Option (List Msg)
  | [] => none
  | m :: rest =>
    match scopeAfterLastHuman rest with
    | some s => some s
    | none => if m.role = .user then some (m :: rest) else none

/-- All call requests carried by a message list, in order. -/
def callsIn (msgs : List Msg) : List ToolCall :=
  msgs.flatMap (·.toolCalls)

/-- Embeds the entry loop check (`ai_chatagent.py:1280-1320`): within the
current scope (or the last six messages when no user message exists),
fire when some `(name, str(args))` pair occurs at least twice and its
capability is not exempt. -/
def entry_loop_fires (messages : List Msg) : Bool :=
  if 3 ≤ messages.length then
    let scope := match scopeAfterLastHuman messages with
      | some s => s
      | none => messages.drop (messages.length - 6)
    let hist := (callsIn scope).map sig
    decide (2 ≤ hist.length) &&
      hist.any (fun p => decide (2 ≤ hist.count p) && !(NEVER_LOOP_BLOCK.contains p.1))
  else false

/-- The canned message of the entry loop check (`ai_chatagent.py:1319-1320`). -/
def stopMsgEntry : Msg :=
  aiMsg ("I've already searched for that information. " ++
    "Based on the results I found, let me provide you with the answer.")

/-- The canned message of the re-entry duplicate check
(`ai_chatagent.py:1381-1382`). -/
def dupMsgReentry : Msg :=
  aiMsg ("I've already searched for that information. " ++
    "Based on the results I found earlier, let me provide you with the answer.")

/-- The canned message of the `tavily_search` loop break
(`ai_chatagent.py:1703-1705`). -/
def stopMsgTavily : Msg :=
  aiMsg ("I've already searched for this information. Based on the search results " ++
    "above, I can answer your question. Please let me know if you need any " ++
    "clarification or have a different question.")

/-- The generic redirect of the blocked-duplicate path
(`ai_chatagent.py:1772-1774`). -/
def redirectMsg : Msg :=
  aiMsg "I already have this information. Let me provide it to you based on my previous search."

/-- The error reply for an empty input state (`ai_chatagent.py:1271`). -/
def errStateMsg : Msg :=
  aiMsg "I couldn't process your message. Please try again."

/-- Embeds the re-entry branch (`ai_chatagent.py:1323-1388`): the last
message already carries call requests; its calls are compared against the
`(name, str(args))` pairs of ALL earlier messages (`messages[:-1]`,
line 1348) — with no exemption and no turn-scope restriction — and the
first duplicate returns the canned message, else the last message is
approved unchanged. -/
def reentryCheck (messages : List Msg) (last : Msg) : List Msg :=
  let prev := (callsIn messages.dropLast).map sig
  if last.toolCalls.any (fun tc => prev.contains (sig tc)) then [dupMsgReentry]
  else [last]

/-- Leading-segment test on character lists. -/
def charsLead : List Char → List Char → Bool
  | [], _ => true
  | _ :: _, [] => false
  | p :: ps, c :: cs => p == c && charsLead ps cs

/-- Substring test on character lists. -/
def charsHasSub (pat : List Char) : List Char → Bool
  | [] => pat.isEmpty
  | c :: t => charsLead pat (c :: t) || charsHasSub pat t

/-- Python `pat in s` on strings. -/
def strContains (s pat : String) : Bool :=
  charsHasSub pat.data s.data

/-- Embeds the previous-result scan of the blocked-duplicate path
(`ai_chatagent.py:1736-1747`): every message whose calls match the
signature overwrites the candidate with the content of the following
message (the source loop does not break out of the outer scan), provided
a following message exists. -/
def findPrevResult (messages : List Msg) (s : String × String) : Option String :=
  (List.range messages.length).foldl
    (fun acc i =>
      match messages.get? i with
      | some m =>
        if m.toolCalls.any (fun tc => sig tc = s) then
          match messages.get? (i + 1) with
          | some nxt => some nxt.content
          | none => acc
        else acc
      | none => acc)
    none

/-- Embeds the resolution of a blocked duplicate
(`ai_chatagent.py:1749-1778`): replay an already-formatted previous
result as plain text; wrap a raw (brace-led) previous result in a
synthesized `format_output` call; or fall back to the generic redirect.
The Python `hash(previous_result)` suffix of the synthesized call id is
abstracted to the result length. -/
def replayMessage (messages : List Msg) (s : String × String) : Msg :=
  match findPrevResult messages s with
  | some r =>
    if r ≠ "" then
      if !(r.startsWith "\x7b") then aiMsg r
      else
        { role := .assistant, content := "",
          toolCalls := [ToolCall.mk "format_output"
            [("data", r),
             ("data_type", if strContains r "location" then "weather" else "search")]
            ("duplicate_format_" ++ toString r.length)],
          name := "", callId := "" }
    else redirectMsg
  | none => redirectMsg

/-- Outcome of the post-response phase of `chatbot`
(`ai_chatagent.py:1657-1790`). -/
inductive PostDecision where
  | final
  | loopStop
  | blockedReplay (m : Msg)
  | approved
deriving DecidableEq, Repr

/-- The scope of the per-turn guard tables
(`messages[last_human_index:] if last_human_index >= 0 else messages`,
`ai_chatagent.py:1680`). -/
def turnScope (messages : List Msg) : List Msg :=
  match scopeAfterLastHuman messages with
  | some s => s
  | none => messages

/-- The `(name, str(args))` pairs accumulated in the current turn scope
(`previous_calls`, `ai_chatagent.py:1678-1685`). -/
def scopeSigs (messages : List Msg) : List (String × String) :=
  (callsIn (turnScope messages)).map sig

/-- The capability names accumulated in the current turn scope, in order
(`previous_tool_names`, `ai_chatagent.py:1679-1686`). -/
def scopeNames (messages : List Msg) : List String :=
  (callsIn (turnScope messages)).map (·.name)

/-- Embeds the per-call duplicate loop (`ai_chatagent.py:1708-1778`):
exempt capabilities are skipped; the first non-exempt call whose
signature is among the accumulated pairs blocks the batch. -/
def checkDup (messages : List Msg) (prev : List (String × String)) :
    List ToolCall → PostDecision
  | [] => .approved
  | tc :: rest =>
    if NEVER_BLOCK_TOOLS.contains tc.name then checkDup messages prev rest
    else if prev.contains (sig tc) then .blockedReplay (replayMessage messages (sig tc))
    else checkDup messages prev rest

/-- Embeds the post-response phase (`ai_chatagent.py:1657-1790`): a
response without call requests is final; otherwise the pairs and names
accumulated since the most recent user message are collected
(`messages[last_human_index:]`, all messages when none), two or more
prior `tavily_search` calls break the loop, and the per-call duplicate
check runs last. -/
def post_decision (messages : List Msg) (response : Msg) : PostDecision :=
  if response.toolCalls.isEmpty then .final
  else if 2 ≤ (scopeNames messages).count "tavily_search" then .loopStop
  else checkDup messages (scopeSigs messages) response.toolCalls

/-- The calls of this response that `route_tools`
(`ai_chatagent.py:1812-1842`) forwards to the tool node after the
post-response phase: the response's own calls when approved, none on the
stop and final paths, and only the synthesized replay calls (if any) on
the blocked path. -/
def dispatchedCalls (messages : List Msg) (response : Msg) : List ToolCall :=
  match post_decision messages response with
  | .approved => response.toolCalls
  | .blockedReplay m => m.toolCalls
  | .final => []
  | .loopStop => []

/-- The messages returned by `chatbot` for a post-response outcome. -/
def renderPost (response : Msg) : PostDecision → List Msg
  | .final => [response]
  | .loopStop => [stopMsgTavily]
  | .blockedReplay m => [m]
  | .approved => [response]

/-- Embeds one invocation of `AiChatagent.chatbot` on a window, with the
model's reply passed in as `response` (the model invoker is an external
collaborator).  Phases in source order: empty-state validation
(line 1269), entry loop check (1280), re-entry duplicate check (1323),
skip on a final assistant message (1395-1399), then the post-response
phase on the model's reply (1657-1790). -/
def chatbot_step (messages : List Msg) (response : Msg) : List Msg :=
  match messages.getLast? with
  | none => [errStateMsg]
  | some last =>
    if entry_loop_fires messages then [stopMsgEntry]
    else if !last.toolCalls.isEmpty then reentryCheck messages last
    else if last.role = .assistant then []
    else renderPost response (post_decision messages response)

/-- One cycle of the graph built by `build_graph`
(`ai_chatagent.py:1880-1908`): run `chatbot`, append its messages, then
`route_tools` (`ai_chatagent.py:1812-1842`) dispatches the tool node
exactly when the resulting last message carries call requests, appending
the batch results; otherwise the turn ends.  The `Bool` reports whether a
tool-dispatch cycle happened. -/
def round_step (oracle : List Msg → Msg) (fmt : String → String) (reg : Registry)
    (messages : List Msg) : List Msg × Bool :=
  let ret := chatbot_step messages (oracle messages)
  let msgs1 := messages ++ ret
  match msgs1.getLast? with
  | some m =>
    if !m.toolCalls.isEmpty then (msgs1 ++ tool_node_outputs fmt reg m, true)
    else (msgs1, false)
  | none => (msgs1, false)

/-- Runs the graph loop for at most `n` rounds, counting tool-dispatch
cycles; the loop stops early (the turn is done) on the first round that
dispatches no tools. -/
def run_rounds (oracle : List Msg → Msg) (fmt : String → String) (reg : Registry) :
    Nat → List Msg → List Msg × Nat
  | 0, messages => (messages, 0)
  | n + 1, messages =>
    let r := round_step oracle fmt reg messages
    if r.2 then
      let rest := run_rounds oracle fmt reg n r.1
      (rest.1, rest.2 + 1)
    else (r.1, 0)

end Socializer

namespace Socializer

/-! Concrete message builders used by witnesses and counterexamples. -/

/-- A `HumanMessage` with the given content. -/
def userMsg (content : String) : Msg :=
  { role := .user, content := content, toolCalls := [], name := "", callId := "" }

/-- An `AIMessage` carrying a single call request. -/
def assistantCall (name : String) (args : List (String × String)) (id : String) : Msg :=
  { role := .assistant, content := "", toolCalls := [ToolCall.mk name args id],
    name := "", callId := "" }

end Socializer

namespace Socializer

/-- Claim C4, counterexample.  The claim asserts the initial System message
is never evicted from the conversation window.  In
`ChatState.add_message`, eviction keeps only the last 20 entries with no
role exemption: after appending a `system` entry and then 20 further
`user` entries, the window holds exactly 20 entries and none of them has
the `system` role — the System message was evicted. -/
theorem C4_system_message_evicted :
    let window := (List.range 20).foldl
      (fun acc i => add_message acc "user" (toString i) "t")
      (add_message [] "system" "sys" "t")
    window.length = 20 ∧ window.all (fun m => m.role ≠ "system") = true := by
  decide

/-- Claim C4, amended.  After every `add_message` append the window holds
at most 20 entries (the cap is the fixed literal 20, not a configurable
default), and the result is exactly the appended list with its oldest
entries dropped — oldest-first eviction with no exemption for the initial
System message (which the counterexample shows is evicted like any other
entry). -/
theorem C4_window_cap (msgs : List ChatStateMsg) (r c t : String) :
    (add_message msgs r c t).length ≤ 20 ∧
    add_message msgs r c t = (msgs ++ [ChatStateMsg.mk r c t]).drop (msgs.length + 1 - 20) := by
  have hlen : (msgs ++ [ChatStateMsg.mk r c t]).length = msgs.length + 1 := by
    simp
  by_cases h : 20 < msgs.length + 1
  · have heq : add_message msgs r c t =
        (msgs ++ [ChatStateMsg.mk r c t]).drop (msgs.length + 1 - 20) := by
      simp only [add_message, hlen, if_pos h]
    refine ⟨?_, heq⟩
    rw [heq, List.length_drop, hlen]
    omega
  · have heq : add_message msgs r c t = msgs ++ [ChatStateMsg.mk r c t] := by
      simp only [add_message, hlen, if_neg h]
    have hz : msgs.length + 1 - 20 = 0 := by omega
    refine ⟨?_, ?_⟩
    · rw [heq, hlen]; omega
    · rw [heq, hz, List.drop_zero]

end Socializer

namespace Socializer

/-- Claim C3.  For every batch executed by the tool node: the node
produces exactly the per-call outputs of the last message (first
conjunct); each call request yields exactly one result message
(second conjunct); the i-th result is a function of the i-th request
alone, so results are appended in issue order and no failure drops a
sibling (third conjunct); and every result is a tool message answering
its request's call id, with an unknown capability or a raising handler
rendered as an error-carrying JSON content instead of aborting the batch
(fourth conjunct). -/
theorem C3_tool_executor (fmt : String → String) (reg : Registry)
    (messages : List Msg) (last : Msg) (h : messages.getLast? = some last) :
    tool_node fmt reg messages = some (tool_node_outputs fmt reg last)
    ∧ (tool_node_outputs fmt reg last).length = last.toolCalls.length
    ∧ (∀ i, (tool_node_outputs fmt reg last).get? i =
        (last.toolCalls.get? i).map (runToolCall fmt reg))
    ∧ (∀ tc : ToolCall,
        (runToolCall fmt reg tc).role = .tool
        ∧ (runToolCall fmt reg tc).callId = tc.id
        ∧ (regLookup reg tc.name = none →
            (runToolCall fmt reg tc).content =
              jsonError ("Tool '" ++ tc.name ++ "' not found. Available tools: " ++
                availableToolsStr reg))
        ∧ (∀ hd e, regLookup reg tc.name = some hd →
            hd (handlerInput tc) = .error e →
            (runToolCall fmt reg tc).content =
              jsonError ("Error calling tool " ++ tc.name ++ ": " ++ e))) := by
  refine ⟨by simp [tool_node, h], by simp [tool_node_outputs], ?_, ?_⟩
  · intro i
    simp [tool_node_outputs, List.getElem?_map, List.get?_eq_getElem?]
  · intro tc
    refine ⟨?_, ?_, ?_, ?_⟩
    · cases hr : regLookup reg tc.name with
      | none => simp [runToolCall, hr, toolMsg]
      | some hd =>
        cases hh : hd (handlerInput tc) with
        | ok r => simp [runToolCall, hr, hh, toolMsg]
        | error e => simp [runToolCall, hr, hh, toolMsg]
    · cases hr : regLookup reg tc.name with
      | none => simp [runToolCall, hr, toolMsg]
      | some hd =>
        cases hh : hd (handlerInput tc) with
        | ok r => simp [runToolCall, hr, hh, toolMsg]
        | error e => simp [runToolCall, hr, hh, toolMsg]
    · intro hr
      simp [runToolCall, hr, toolMsg]
    · intro hd e hr hh
      simp [runToolCall, hr, hh, toolMsg]

/-- Concrete registry used by the C3 witness: one succeeding handler and
one raising handler. -/
def witnessReg : Registry :=
  [("skill_evaluator", fun _ => .ok "score 80"),
   ("life_event", fun _ => .error "boom")]

/-- Concrete batch used by the C3 witness: a succeeding call, a raising
call and an unknown capability in one assistant message. -/
def witnessBatchMsg : Msg :=
  { role := .assistant, content := "",
    toolCalls := [ToolCall.mk "skill_evaluator" [("m", "hi")] "1",
                  ToolCall.mk "life_event" [("action", "list")] "2",
                  ToolCall.mk "nonexistent" [] "3"],
    name := "", callId := "" }

/-- Witness for C3 at a concrete batch containing a success, a handler
failure and an unknown capability. -/
theorem C3_tool_executor_witness :
    tool_node id witnessReg [witnessBatchMsg] =
      some (tool_node_outputs id witnessReg witnessBatchMsg)
    ∧ (tool_node_outputs id witnessReg witnessBatchMsg).length = 3 := by
  have h := C3_tool_executor id witnessReg [witnessBatchMsg] witnessBatchMsg rfl
  exact ⟨h.1, h.2.1⟩

end Socializer

namespace Socializer

/-- Dropping a pattern it was just prepended with recovers the rest. -/
theorem stripLead_append (pat rest : List Char) :
    stripLead pat (pat ++ rest) = some rest := by
  induction pat with
  | nil => rfl
  | cons p ps ih => simp [stripLead, ih]

/-- Splitting at `": "` after a colon-free segment recovers both parts. -/
theorem splitAtColonSpace_append (name msg : List Char)
    (h : ∀ ch ∈ name, ch ≠ ':') :
    splitAtColonSpace (name ++ ':' :: ' ' :: msg) = some (name, msg) := by
  induction name with
  | nil => rfl
  | cons c cs ih =>
    have hc : c ≠ ':' := h c (List.mem_cons_self c cs)
    have ihr := ih (fun ch hm => h ch (List.mem_cons_of_mem c hm))
    rw [List.cons_append, splitAtColonSpace.eq_def]
    split
    · simp_all
    · next rest heq =>
        rw [List.cons.injEq] at heq
        exact absurd heq.1 hc
    · next c' rest heq =>
        rw [List.cons.injEq] at heq
        obtain ⟨h1, h2⟩ := heq
        subst h1
        rw [← h2, ihr]

/-- Claim C9.  A tool result dict carrying an explicit error entry is
rendered exactly as `"Error from NAME: MESSAGE"` (first conjunct, the
error branch of `format_tool_result` fires before every other rule), and
for a capability name free of colons the rendering is lossless: the error
flag and both components are recovered by `extractErrorParts` (second
conjunct). -/
theorem C9_error_rendering :
    (∀ (entries : List (String × PyVal)) (name : String),
        hasKey "error" entries = true →
        format_tool_result (.dict entries) name =
          "Error from " ++ name ++ ": " ++ errValueStr entries)
    ∧ (∀ name msg : String, (∀ ch ∈ name.data, ch ≠ ':') →
        extractErrorParts ("Error from " ++ name ++ ": " ++ msg) = some (name, msg)) := by
  constructor
  · intro entries name h
    simp [format_tool_result, h]
  · intro name msg h
    unfold extractErrorParts
    have hdata : ("Error from " ++ name ++ ": " ++ msg).data =
        "Error from ".data ++ (name.data ++ ':' :: ' ' :: msg.data) := by
      simp [String.data_append]
    rw [hdata, stripLead_append]
    simp only []
    rw [splitAtColonSpace_append name.data msg.data h]

/-- Witness for C9: the spec's scenario, `\x7berror: "timeout"\x7d` from
capability `search` renders to `"Error from search: timeout"` and is
re-extracted losslessly. -/
theorem C9_error_rendering_witness :
    format_tool_result (.dict [("error", .str "timeout")]) "search" =
      "Error from search: timeout"
    ∧ extractErrorParts "Error from search: timeout" = some ("search", "timeout") := by
  constructor
  · exact (C9_error_rendering.1 [("error", .str "timeout")] "search" rfl).trans rfl
  · exact C9_error_rendering.2 "search" "timeout" (by decide)

end Socializer

namespace Socializer

/-- A string starting with a non-empty literal is itself non-empty. -/
theorem str_append_ne_empty (a b : String) (h : a.data ≠ []) : a ++ b ≠ "" := by
  intro hcon
  have hd := congrArg String.data hcon
  rw [String.data_append] at hd
  have hnil : a.data ++ b.data = [] := hd
  exact h (List.append_eq_nil.mp hnil).1

/-- Every fallback message is a plain assistant message: it never carries
call requests. -/
theorem generate_fallback_no_calls (r n : Option String) :
    (generate_fallback r n).toolCalls = [] := by
  simp only [generate_fallback]
  split_ifs <;> rfl

/-- Every fallback message has non-empty content. -/
theorem generate_fallback_content_ne (r n : Option String) :
    (generate_fallback r n).content ≠ "" := by
  simp only [generate_fallback]
  split_ifs
  · exact str_append_ne_empty "Based on the " _ (by decide)
  · exact str_append_ne_empty "Based on the information I found:\n\n" _ (by decide)
  · show apologyText ≠ ""
    unfold apologyText
    exact str_append_ne_empty _ _ (by decide)

/-- On a degenerate response the handler always returns a fallback
message. -/
theorem create_response_is_fallback (response : Msg) (messages : List Msg)
    (h : is_empty_response response = true) :
    ∃ r n, create_response_with_fallback response messages = generate_fallback r n := by
  unfold create_response_with_fallback
  rw [h]
  simp only [Bool.not_true, Bool.false_eq_true, if_false]
  cases hE : extract_tool_result_from_messages messages with
  | none => exact ⟨none, none, rfl⟩
  | some pr =>
    obtain ⟨tr, tn⟩ := pr
    cases tr with
    | none => exact ⟨none, none, rfl⟩
    | some r =>
      by_cases hr : r ≠ ""
      · exact ⟨some r, some tn, by simp [hr]⟩
      · exact ⟨none, none, by simp [hr]⟩

/-- Claim C10.  The degenerate-response check depends only on the textual
content: a message whose content is empty, a bare code fence, or
whitespace-only is classified degenerate regardless of the call requests
it carries, and the fallback that replaces it carries no call requests at
all — the original message's call requests are dropped, not dispatched. -/
theorem C10_degenerate_by_content_only (content : String) (tcs : List ToolCall)
    (messages : List Msg)
    (h : content = "" ∨ content = "```" ∨ content = "`" ∨ pyStrip content = "") :
    is_empty_response (Msg.mk .assistant content tcs "" "") = true
    ∧ (create_response_with_fallback (Msg.mk .assistant content tcs "" "") messages).toolCalls
        = [] := by
  have hEmpty : is_empty_response (Msg.mk .assistant content tcs "" "") = true := by
    rcases h with h | h | h | h
    · subst h; rfl
    · subst h; rfl
    · subst h; rfl
    · simp [is_empty_response, h, EMPTY_PATTERNS]
  refine ⟨hEmpty, ?_⟩
  obtain ⟨r, n, hEq⟩ :=
    create_response_is_fallback (Msg.mk .assistant content tcs "" "") messages hEmpty
  rw [hEq]
  exact generate_fallback_no_calls r n

/-- Witness for C10: a bare-code-fence assistant message that carries a
call request is classified degenerate and its request is dropped. -/
theorem C10_degenerate_by_content_only_witness :
    is_empty_response
      (Msg.mk .assistant "```" [ToolCall.mk "tavily_search" [("query", "x")] "1"] "" "") = true
    ∧ (create_response_with_fallback
        (Msg.mk .assistant "```" [ToolCall.mk "tavily_search" [("query", "x")] "1"] "" "")
        []).toolCalls = [] :=
  C10_degenerate_by_content_only "```"
    [ToolCall.mk "tavily_search" [("query", "x")] "1"] [] (Or.inr (Or.inl rfl))

end Socializer

namespace Socializer

/-- Claim C5.  For a degenerate candidate response: the recovery result
depends only on the last three window messages (first conjunct, the
bounded look-back); when the backward scan finds a tool result with
content (and a capability name), the synthesized reply is exactly
`"Based on the NAME results:"` followed by the formatted result (second
conjunct); when the scan finds nothing the generic apology is returned
(third conjunct); and the returned content is never empty (fourth
conjunct). -/
theorem C5_fallback_recovery (response : Msg) (messages : List Msg)
    (h : is_empty_response response = true) :
    create_response_with_fallback response messages =
      create_response_with_fallback response (messages.drop (messages.length - 3))
    ∧ (∀ r n, extract_tool_result_from_messages messages = some (some r, n) →
        r ≠ "" → n ≠ "" →
        (create_response_with_fallback response messages).content =
          "Based on the " ++ n ++ " results:\n\n" ++ format_tool_result (.str r) n)
    ∧ (extract_tool_result_from_messages messages = none →
        (create_response_with_fallback response messages).content = apologyText)
    ∧ (create_response_with_fallback response messages).content ≠ "" := by
  have hscan : extract_tool_result_from_messages (messages.drop (messages.length - 3)) =
      extract_tool_result_from_messages messages := by
    unfold extract_tool_result_from_messages
    have hz : (messages.drop (messages.length - 3)).length - 3 = 0 := by
      rw [List.length_drop]; omega
    rw [hz, List.drop_zero]
  refine ⟨?_, ?_, ?_, ?_⟩
  · unfold create_response_with_fallback
    rw [hscan]
  · intro r n hE hr hn
    unfold create_response_with_fallback
    rw [h]
    simp only [Bool.not_true, Bool.false_eq_true, if_false]
    rw [hE]
    simp only [hr, if_pos]
    simp [generate_fallback, hr, hn, aiMsg]
  · intro hE
    unfold create_response_with_fallback
    rw [h]
    simp only [Bool.not_true, Bool.false_eq_true, if_false]
    rw [hE]
    rfl
  · obtain ⟨r, n, hEq⟩ := create_response_is_fallback response messages h
    rw [hEq]
    exact generate_fallback_content_ne r n

/-- Witness for C5: the spec's scenario — an empty model reply following a
`weather` tool result containing `temp: 20` yields a reply that names the
capability and carries the result, hence mentions both "weather" and
"20". -/
theorem C5_fallback_recovery_witness :
    (create_response_with_fallback (aiMsg "")
      [toolMsg "- temp: 20\n- condition: Sunny" "weather" "c1"]).content =
      "Based on the weather results:\n\n- temp: 20\n- condition: Sunny" := by
  have h := (C5_fallback_recovery (aiMsg "")
    [toolMsg "- temp: 20\n- condition: Sunny" "weather" "c1"] rfl).2.1
    "- temp: 20\n- condition: Sunny" "weather" rfl (by decide) (by decide)
  exact h.trans rfl

end Socializer

namespace Socializer

/-- A non-exempt call whose signature is among the accumulated pairs makes
the per-call duplicate loop return a non-approved outcome. -/
theorem checkDup_ne_approved (messages : List Msg) (prev : List (String × String))
    (tcs : List ToolCall) (tc : ToolCall) (htc : tc ∈ tcs)
    (hex : tc.name ∉ NEVER_BLOCK_TOOLS) (hprev : sig tc ∈ prev) :
    checkDup messages prev tcs ≠ .approved := by
  induction tcs with
  | nil => cases htc
  | cons hd tl ih =>
    simp only [checkDup]
    by_cases hc : NEVER_BLOCK_TOOLS.contains hd.name = true
    · rw [if_pos hc]
      rcases List.mem_cons.mp htc with heq | hmem
      · subst heq
        exact absurd (by simpa using hc) hex
      · exact ih hmem
    · rw [if_neg hc]
      by_cases hp : prev.contains (sig hd) = true
      · rw [if_pos hp]
        exact fun hcon => PostDecision.noConfusion hcon
      · rw [if_neg hp]
        rcases List.mem_cons.mp htc with heq | hmem
        · subst heq
          exact absurd (by simpa using hprev) (by simpa using hp)
        · exact ih hmem

/-- A blocked outcome of the per-call duplicate loop names a non-exempt
duplicate among the checked calls, and its payload is the replay message
of that duplicate's signature. -/
theorem checkDup_blocked_elim (messages : List Msg) (prev : List (String × String))
    (tcs : List ToolCall) (m : Msg)
    (h : checkDup messages prev tcs = .blockedReplay m) :
    ∃ tc ∈ tcs, tc.name ∉ NEVER_BLOCK_TOOLS ∧ sig tc ∈ prev ∧
      m = replayMessage messages (sig tc) := by
  induction tcs with
  | nil => exact absurd h (by simp [checkDup])
  | cons hd tl ih =>
    simp only [checkDup] at h
    by_cases hc : NEVER_BLOCK_TOOLS.contains hd.name = true
    · rw [if_pos hc] at h
      obtain ⟨tc, hmem, hx⟩ := ih h
      exact ⟨tc, List.mem_cons_of_mem _ hmem, hx⟩
    · rw [if_neg hc] at h
      by_cases hp : prev.contains (sig hd) = true
      · rw [if_pos hp] at h
        injection h with h1
        exact ⟨hd, List.mem_cons_self hd tl, by simpa using hc, by simpa using hp, h1.symm⟩
      · rw [if_neg hp] at h
        obtain ⟨tc, hmem, hx⟩ := ih h
        exact ⟨tc, List.mem_cons_of_mem _ hmem, hx⟩

/-- Calls that are all exempt always pass the per-call duplicate loop,
regardless of the accumulated pairs. -/
theorem checkDup_approved_of_exempt (messages : List Msg)
    (prev : List (String × String)) (tcs : List ToolCall)
    (h : ∀ tc ∈ tcs, tc.name ∈ NEVER_BLOCK_TOOLS) :
    checkDup messages prev tcs = .approved := by
  induction tcs with
  | nil => rfl
  | cons hd tl ih =>
    simp only [checkDup]
    have hc : NEVER_BLOCK_TOOLS.contains hd.name = true := by
      simpa using h hd (List.mem_cons_self hd tl)
    rw [if_pos hc]
    exact ih fun tc hm => h tc (List.mem_cons_of_mem _ hm)

/-- The replay payload of a blocked duplicate carries either no calls or
only a synthesized `format_output` call. -/
theorem replayMessage_calls (messages : List Msg) (s : String × String) :
    (replayMessage messages s).toolCalls = [] ∨
    ∃ r, (replayMessage messages s).toolCalls =
      [ToolCall.mk "format_output"
        [("data", r), ("data_type", if strContains r "location" then "weather" else "search")]
        ("duplicate_format_" ++ toString r.length)] := by
  cases hf : findPrevResult messages s with
  | none => left; simp [replayMessage, hf, redirectMsg, aiMsg]
  | some r =>
    by_cases hr : r ≠ ""
    · by_cases hs : (!(r.startsWith "\x7b")) = true
      · left; simp [replayMessage, hf, hr, hs, aiMsg]
      · right; exact ⟨r, by simp [replayMessage, hf, hr, hs]⟩
    · left; simp [replayMessage, hf, hr, redirectMsg, aiMsg]

/-- A blocked-replay outcome of the post-response phase comes from the
per-call duplicate loop. -/
theorem post_decision_blocked_elim (messages : List Msg) (response : Msg) (m : Msg)
    (hd : post_decision messages response = .blockedReplay m) :
    checkDup messages (scopeSigs messages) response.toolCalls = .blockedReplay m := by
  unfold post_decision at hd
  split_ifs at hd
  exact hd

/-- A batch with no non-exempt duplicate passes the per-call duplicate
loop. -/
theorem checkDup_approved_of_no_dup (messages : List Msg)
    (prev : List (String × String)) (tcs : List ToolCall)
    (h : ∀ tc ∈ tcs, tc.name ∉ NEVER_BLOCK_TOOLS → sig tc ∉ prev) :
    checkDup messages prev tcs = .approved := by
  induction tcs with
  | nil => rfl
  | cons hd tl ih =>
    simp only [checkDup]
    by_cases hc : NEVER_BLOCK_TOOLS.contains hd.name = true
    · rw [if_pos hc]
      exact ih fun tc hm => h tc (List.mem_cons_of_mem _ hm)
    · rw [if_neg hc]
      have hp : prev.contains (sig hd) = false := by
        have := h hd (List.mem_cons_self hd tl) (by simpa using hc)
        simpa using this
      rw [if_neg (by simpa using hp)]
      exact ih fun tc hm => h tc (List.mem_cons_of_mem _ hm)

/-- A non-exempt call request whose signature already occurs among the
turn scope's accumulated pairs is never approved by the post-response
phase. -/
theorem post_decision_ne_approved_of_dup (messages : List Msg) (response : Msg)
    (tc : ToolCall) (htc : tc ∈ response.toolCalls)
    (hex : tc.name ∉ NEVER_BLOCK_TOOLS) (hsig : sig tc ∈ scopeSigs messages) :
    post_decision messages response ≠ .approved := by
  have hne : response.toolCalls.isEmpty = false := by
    cases hcalls : response.toolCalls with
    | nil => rw [hcalls] at htc; cases htc
    | cons a b => rfl
  unfold post_decision
  rw [hne]
  simp only [Bool.false_eq_true, if_false]
  by_cases ht : 2 ≤ (scopeNames messages).count "tavily_search"
  · rw [if_pos ht]
    exact fun hcon => PostDecision.noConfusion hcon
  · rw [if_neg ht]
    exact checkDup_ne_approved messages (scopeSigs messages) response.toolCalls tc
      htc hex hsig

/-- Claim C2.  Within one turn scope: a call request whose
`(capability, canonical arguments)` pair already occurred in an earlier
message of the scope and whose capability is not exempt makes the
controller refuse the batch (first conjunct); every blocked outcome is
due to such a non-exempt duplicate (second conjunct); requests consisting
solely of exempt capabilities (`format_output`, `clarify_communication`)
are always approved no matter how often they repeat (third conjunct);
a non-exempt duplicate request is never among the calls forwarded to the
tool node (fourth conjunct); and a batch whose first occurrences carry no
duplicate (absent the separate search loop-break) is approved, so a first
occurrence alone is never blocked (fifth conjunct). -/
theorem C2_duplicate_guard :
    (∀ (messages : List Msg) (response : Msg) (tc : ToolCall),
        tc ∈ response.toolCalls → tc.name ∉ NEVER_BLOCK_TOOLS →
        sig tc ∈ scopeSigs messages →
        post_decision messages response ≠ .approved)
    ∧ (∀ (messages : List Msg) (prev : List (String × String))
        (tcs : List ToolCall) (m : Msg),
        checkDup messages prev tcs = .blockedReplay m →
        ∃ tc ∈ tcs, tc.name ∉ NEVER_BLOCK_TOOLS ∧ sig tc ∈ prev)
    ∧ (∀ (messages : List Msg) (prev : List (String × String)) (tcs : List ToolCall),
        (∀ tc ∈ tcs, tc.name ∈ NEVER_BLOCK_TOOLS) →
        checkDup messages prev tcs = .approved)
    ∧ (∀ (messages : List Msg) (response : Msg) (tc : ToolCall),
        tc ∈ response.toolCalls → tc.name ∉ NEVER_BLOCK_TOOLS →
        sig tc ∈ scopeSigs messages →
        tc ∉ dispatchedCalls messages response)
    ∧ (∀ (messages : List Msg) (response : Msg),
        response.toolCalls ≠ [] →
        (∀ tc ∈ response.toolCalls, tc.name ∉ NEVER_BLOCK_TOOLS →
          sig tc ∉ scopeSigs messages) →
        ¬ 2 ≤ (scopeNames messages).count "tavily_search" →
        post_decision messages response = .approved) := by
  have h1 := post_decision_ne_approved_of_dup
  refine ⟨h1, ?_, ?_, ?_, ?_⟩
  · intro messages prev tcs m h
    obtain ⟨tc, hmem, hx1, hx2, -⟩ := checkDup_blocked_elim messages prev tcs m h
    exact ⟨tc, hmem, hx1, hx2⟩
  · exact checkDup_approved_of_exempt
  · intro messages response tc htc hex hsig hmem
    cases hd : post_decision messages response with
    | approved => exact h1 messages response tc htc hex hsig hd
    | final => simp [dispatchedCalls, hd] at hmem
    | loopStop => simp [dispatchedCalls, hd] at hmem
    | blockedReplay m =>
      have hmem2 : tc ∈ m.toolCalls := by
        simpa [dispatchedCalls, hd] using hmem
      have hc := post_decision_blocked_elim messages response m hd
      obtain ⟨tc0, -, -, -, hm⟩ :=
        checkDup_blocked_elim messages (scopeSigs messages) response.toolCalls m hc
      rw [hm] at hmem2
      rcases replayMessage_calls messages (sig tc0) with hnil | ⟨r, hfmt⟩
      · rw [hnil] at hmem2; cases hmem2
      · rw [hfmt] at hmem2
        have heq := List.mem_singleton.mp hmem2
        apply hex
        rw [heq]
        exact List.mem_cons_self _ _
  · intro messages response hcalls hnodup ht
    have hne : response.toolCalls.isEmpty = false := by
      cases hc : response.toolCalls with
      | nil => exact absurd hc hcalls
      | cons a b => rfl
    unfold post_decision
    rw [hne]
    simp only [Bool.false_eq_true, if_false]
    rw [if_neg ht]
    exact checkDup_approved_of_no_dup _ _ _ hnodup

end Socializer

namespace Socializer

/-- Window used by the C2 witness: one turn with an executed
`tavily_search` call. -/
def c2Msgs : List Msg :=
  [userMsg "q",
   assistantCall "tavily_search" [("query", "x")] "1",
   toolMsg "result text" "tavily_search" "1"]

/-- Model reply used by the C2 witness: the same call again. -/
def c2Resp : Msg := assistantCall "tavily_search" [("query", "x")] "2"

/-- Witness for C2: the repeated `(tavily_search, {query: x})` request is
refused and is not among the dispatched calls. -/
theorem C2_duplicate_guard_witness :
    post_decision c2Msgs c2Resp ≠ .approved
    ∧ ToolCall.mk "tavily_search" [("query", "x")] "2" ∉ dispatchedCalls c2Msgs c2Resp :=
  ⟨C2_duplicate_guard.1 c2Msgs c2Resp (ToolCall.mk "tavily_search" [("query", "x")] "2")
      (by decide) (by decide) (by decide),
   C2_duplicate_guard.2.2.2.1 c2Msgs c2Resp (ToolCall.mk "tavily_search" [("query", "x")] "2")
      (by decide) (by decide) (by decide)⟩

/-- Window used by the C7 counterexample: one turn with an executed
`life_event` call whose arguments are listed in one order. -/
def c7Msgs : List Msg :=
  [userMsg "q",
   assistantCall "life_event" [("a", "1"), ("b", "2")] "1",
   toolMsg "r" "life_event" "1"]

/-- Model reply used by the C7 counterexample: the same capability with
the same key-value pairs listed in the other order. -/
def c7Resp : Msg := assistantCall "life_event" [("b", "2"), ("a", "1")] "2"

/-- Claim C7, counterexample.  Two argument maps equal as key-to-value
maps (a permutation of each other) but listed in different key order
canonicalize to different strings under the guard's `str(args)`
serialization, and the second call is consequently approved rather than
treated as a duplicate — refuting the claimed order-independence. -/
theorem C7_counterexample :
    ([("a", "1"), ("b", "2")] : List (String × String)).Perm [("b", "2"), ("a", "1")]
    ∧ pyArgsStr [("a", "1"), ("b", "2")] ≠ pyArgsStr [("b", "2"), ("a", "1")]
    ∧ post_decision c7Msgs c7Resp = .approved := by
  refine ⟨by decide, by decide, by decide⟩

/-- Claim C7, amended.  The guard's canonical form is `str(args)`, which
ignores the call id but preserves the insertion order of keys: a repeat
of the same capability with the syntactically identical ordered argument
list (first conjunct: the signature does not depend on the call id) is
recognized and blocked (second conjunct); argument maps listed in a
different key order are not recognized, as the counterexample shows. -/
theorem C7_canonical_order_sensitive :
    (∀ (n : String) (args : List (String × String)) (i j : String),
        sig (ToolCall.mk n args i) = sig (ToolCall.mk n args j))
    ∧ (∀ (messages : List Msg) (response : Msg) (tc tc' : ToolCall),
        tc ∈ response.toolCalls → tc.name ∉ NEVER_BLOCK_TOOLS →
        tc' ∈ callsIn (turnScope messages) →
        tc'.name = tc.name → tc'.args = tc.args →
        post_decision messages response ≠ .approved) := by
  constructor
  · intro n args i j
    rfl
  · intro messages response tc tc' htc hex hmem hn ha
    have hsig : sig tc ∈ scopeSigs messages := by
      have hs : sig tc' = sig tc := by simp [sig, hn, ha]
      rw [← hs]
      exact List.mem_map_of_mem sig hmem
    exact post_decision_ne_approved_of_dup messages response tc htc hex hsig

/-- Witness for the amended C7: a repeat with identical ordered arguments
but a fresh call id is refused. -/
theorem C7_canonical_order_sensitive_witness :
    sig (ToolCall.mk "tavily_search" [("query", "x")] "1")
      = sig (ToolCall.mk "tavily_search" [("query", "x")] "2")
    ∧ post_decision c2Msgs c2Resp ≠ .approved :=
  ⟨C7_canonical_order_sensitive.1 "tavily_search" [("query", "x")] "1" "2",
   C7_canonical_order_sensitive.2 c2Msgs c2Resp
      (ToolCall.mk "tavily_search" [("query", "x")] "2")
      (ToolCall.mk "tavily_search" [("query", "x")] "1")
      (by decide) (by decide) (by decide) (by decide) (by decide)⟩

end Socializer

namespace Socializer

/-- Window used by the C8 counterexample: one turn in which
`skill_evaluator` was already invoked twice with different arguments. -/
def c8Msgs : List Msg :=
  [userMsg "q",
   assistantCall "skill_evaluator" [("m", "a")] "1",
   toolMsg "r1" "skill_evaluator" "1",
   assistantCall "skill_evaluator" [("m", "b")] "2",
   toolMsg "r2" "skill_evaluator" "2"]

/-- Model reply used by the C8 counterexample: a third `skill_evaluator`
request with yet different arguments. -/
def c8Resp : Msg := assistantCall "skill_evaluator" [("m", "c")] "3"

/-- Claim C8, counterexample.  A capability other than `tavily_search`
(`skill_evaluator`) already appears twice among the call requests
accumulated in the turn scope, with different arguments each time; the
controller nevertheless approves a third request and returns it for
dispatch instead of short-circuiting to DONE — the
"same capability name 2+ times regardless of arguments" short-circuit
does not exist for capabilities other than `tavily_search`. -/
theorem C8_counterexample :
    (scopeNames c8Msgs).count "skill_evaluator" = 2
    ∧ post_decision c8Msgs c8Resp = .approved
    ∧ chatbot_step c8Msgs c8Resp = [c8Resp] := by
  refine ⟨by decide, by decide, by decide⟩

/-- Claim C8, amended.  The regardless-of-arguments short-circuit exists
only for the `tavily_search` capability: whenever `tavily_search` appears
at least twice among the call requests accumulated in the current turn
scope and the model requests further calls, the controller short-circuits
with the canned "already searched / can answer your question" message
instead of dispatching again. -/
theorem C8_tavily_short_circuit (messages : List Msg) (response : Msg)
    (hcalls : response.toolCalls ≠ [])
    (ht : 2 ≤ (scopeNames messages).count "tavily_search") :
    post_decision messages response = .loopStop
    ∧ renderPost response (post_decision messages response) = [stopMsgTavily] := by
  have hne : response.toolCalls.isEmpty = false := by
    cases hc : response.toolCalls with
    | nil => exact absurd hc hcalls
    | cons a b => rfl
  have hd : post_decision messages response = .loopStop := by
    unfold post_decision
    rw [hne]
    simp only [Bool.false_eq_true, if_false]
    rw [if_pos ht]
  exact ⟨hd, by rw [hd]; rfl⟩

/-- Window used by the C8 witness: two prior `tavily_search` calls with
different queries in one turn. -/
def c8TavMsgs : List Msg :=
  [userMsg "q",
   assistantCall "tavily_search" [("query", "a")] "1",
   toolMsg "r1" "tavily_search" "1",
   assistantCall "tavily_search" [("query", "b")] "2",
   toolMsg "r2" "tavily_search" "2"]

/-- Witness for the amended C8: a third `tavily_search` request (with a
fresh query) is short-circuited with the canned message. -/
theorem C8_tavily_short_circuit_witness :
    post_decision c8TavMsgs (assistantCall "tavily_search" [("query", "c")] "3") = .loopStop
    ∧ renderPost (assistantCall "tavily_search" [("query", "c")] "3")
        (post_decision c8TavMsgs (assistantCall "tavily_search" [("query", "c")] "3"))
        = [stopMsgTavily] :=
  C8_tavily_short_circuit c8TavMsgs (assistantCall "tavily_search" [("query", "c")] "3")
    (by decide) (by decide)

end Socializer

namespace Socializer

/-- Window used by the C6 counterexample: a completed earlier turn with an
executed `tavily_search` call, then a new user question whose assistant
message repeats that call. -/
def c6Msgs : List Msg :=
  [userMsg "q1",
   assistantCall "tavily_search" [("query", "x")] "1",
   toolMsg "r" "tavily_search" "1",
   aiMsg "done",
   userMsg "q2",
   assistantCall "tavily_search" [("query", "x")] "2"]

/-- Claim C6, counterexample.  The repeated request's signature does not
occur in any message since the most recent User message other than the
request itself (second conjunct) — its only prior occurrence lies in the
previous turn (third conjunct) — yet `chatbot`, entered with that
assistant message last, blocks it as a duplicate (first conjunct): the
re-entry check (`ai_chatagent.py:1344-1357`) builds its table from ALL
prior messages, not from the current turn scope. -/
theorem C6_counterexample :
    chatbot_step c6Msgs (aiMsg "ignored") = [dupMsgReentry]
    ∧ sig (ToolCall.mk "tavily_search" [("query", "x")] "2")
        ∉ (callsIn ((turnScope c6Msgs).dropLast)).map sig
    ∧ sig (ToolCall.mk "tavily_search" [("query", "x")] "2")
        ∈ (callsIn (c6Msgs.take 4)).map sig := by
  refine ⟨by decide, by decide, by decide⟩

/-- With no user-role message in the list, the backward scan finds
nothing. -/
theorem scopeAfterLastHuman_none (l : List Msg) (h : ∀ m ∈ l, m.role ≠ .user) :
    scopeAfterLastHuman l = none := by
  induction l with
  | nil => rfl
  | cons m t ih =>
    have ht := ih fun x hx => h x (List.mem_cons_of_mem m hx)
    have hm : m.role ≠ .user := h m (List.mem_cons_self m t)
    simp [scopeAfterLastHuman, ht, hm]

/-- The scan returns the suffix headed by the last user message. -/
theorem scopeAfterLastHuman_cons_user (h : Msg) (rest : List Msg)
    (hh : h.role = .user) (hrest : ∀ m ∈ rest, m.role ≠ .user) :
    scopeAfterLastHuman (h :: rest) = some (h :: rest) := by
  simp [scopeAfterLastHuman, scopeAfterLastHuman_none rest hrest, hh]

/-- Prepending a message does not change a successful scan. -/
theorem scopeAfterLastHuman_cons_of_some (x : Msg) (l s : List Msg)
    (h : scopeAfterLastHuman l = some s) :
    scopeAfterLastHuman (x :: l) = some s := by
  simp [scopeAfterLastHuman, h]

/-- Prepending any prefix does not change a successful scan. -/
theorem scopeAfterLastHuman_append_of_some (pre l : List Msg) (s : List Msg)
    (h : scopeAfterLastHuman l = some s) :
    scopeAfterLastHuman (pre ++ l) = some s := by
  induction pre with
  | nil => simpa using h
  | cons x t ih => simpa using scopeAfterLastHuman_cons_of_some x (t ++ l) s ih

/-- Whether the per-call duplicate loop approves a batch does not depend
on the window passed along for replay synthesis. -/
theorem checkDup_approved_irrel (m1 m2 : List Msg) (prev : List (String × String))
    (tcs : List ToolCall) :
    checkDup m1 prev tcs = .approved ↔ checkDup m2 prev tcs = .approved := by
  induction tcs with
  | nil => simp [checkDup]
  | cons hd tl ih =>
    simp only [checkDup]
    by_cases hc : NEVER_BLOCK_TOOLS.contains hd.name = true
    · rw [if_pos hc, if_pos hc]; exact ih
    · rw [if_neg hc, if_neg hc]
      by_cases hp : prev.contains (sig hd) = true
      · rw [if_pos hp, if_pos hp]
        exact ⟨fun hcon => absurd hcon (fun x => PostDecision.noConfusion x),
               fun hcon => absurd hcon (fun x => PostDecision.noConfusion x)⟩
      · rw [if_neg hp, if_neg hp]; exact ih

/-- Claim C6, amended.  The POST-RESPONSE duplicate table is rebuilt per
turn and scoped to the messages from the most recent User message on:
prefixing any earlier turns changes neither the accumulated pairs, nor
the accumulated names, nor whether a freshly returned model response is
approved — so a NEW call request returned by the model is never blocked
because of a call made before the most recent User message.  (The
re-entry check on an assistant message already present as the last window
message scans the whole conversation instead, as the counterexample
shows.) -/
theorem C6_post_guard_scoped (pre : List Msg) (h : Msg) (rest : List Msg)
    (response : Msg) (hh : h.role = .user) (hrest : ∀ m ∈ rest, m.role ≠ .user) :
    scopeSigs (pre ++ h :: rest) = scopeSigs (h :: rest)
    ∧ scopeNames (pre ++ h :: rest) = scopeNames (h :: rest)
    ∧ (post_decision (pre ++ h :: rest) response = .approved ↔
        post_decision (h :: rest) response = .approved) := by
  have hscan : scopeAfterLastHuman (pre ++ h :: rest) = some (h :: rest) :=
    scopeAfterLastHuman_append_of_some pre (h :: rest) (h :: rest)
      (scopeAfterLastHuman_cons_user h rest hh hrest)
  have hscan2 : scopeAfterLastHuman (h :: rest) = some (h :: rest) :=
    scopeAfterLastHuman_cons_user h rest hh hrest
  have hscope : turnScope (pre ++ h :: rest) = turnScope (h :: rest) := by
    unfold turnScope
    rw [hscan, hscan2]
  have hsigs : scopeSigs (pre ++ h :: rest) = scopeSigs (h :: rest) := by
    unfold scopeSigs
    rw [hscope]
  have hnames : scopeNames (pre ++ h :: rest) = scopeNames (h :: rest) := by
    unfold scopeNames
    rw [hscope]
  refine ⟨hsigs, hnames, ?_⟩
  unfold post_decision
  rw [hsigs, hnames]
  by_cases he : response.toolCalls.isEmpty = true
  · rw [he]
    simp only [if_true]
  · rw [Bool.not_eq_true] at he
    rw [he]
    simp only [Bool.false_eq_true, if_false]
    by_cases ht : 2 ≤ (scopeNames (h :: rest)).count "tavily_search"
    · rw [if_pos ht, if_pos ht]
    · rw [if_neg ht, if_neg ht]
      exact checkDup_approved_irrel (pre ++ h :: rest) (h :: rest)
        (scopeSigs (h :: rest)) response.toolCalls

/-- Witness for the amended C6: an executed `tavily_search` call of a
previous turn does not block the same request when it is freshly returned
by the model in a new turn — the post-response decision is the same as if
the previous turn were absent (and both are approvals). -/
theorem C6_post_guard_scoped_witness :
    (post_decision
        ([userMsg "old", assistantCall "tavily_search" [("query", "x")] "1",
          toolMsg "r" "tavily_search" "1"] ++ [userMsg "new"])
        (assistantCall "tavily_search" [("query", "x")] "2") = .approved ↔
      post_decision [userMsg "new"]
        (assistantCall "tavily_search" [("query", "x")] "2") = .approved)
    ∧ post_decision
        ([userMsg "old", assistantCall "tavily_search" [("query", "x")] "1",
          toolMsg "r" "tavily_search" "1"] ++ [userMsg "new"])
        (assistantCall "tavily_search" [("query", "x")] "2") = .approved :=
  ⟨(C6_post_guard_scoped
      [userMsg "old", assistantCall "tavily_search" [("query", "x")] "1",
        toolMsg "r" "tavily_search" "1"]
      (userMsg "new") []
      (assistantCall "tavily_search" [("query", "x")] "2")
      (by decide) (by decide)).2.2,
   by decide⟩

end Socializer

namespace Socializer

/-- The repeated clarification request of the C1 run: one call request on
every model reply. -/
def clarResp : Msg := assistantCall "clarify_communication" [("text", "hi")] "c"

/-- A model oracle that requests a (guard-exempt) clarification call on
every round. -/
def clarOracle : List Msg → Msg := fun _ => clarResp

/-- Registry for the C1 run: the clarification capability succeeds. -/
def clarReg : Registry := [("clarify_communication", fun _ => .ok "done")]

/-- The tool result each clarification round appends. -/
def clarToolMsg : Msg := toolMsg "done" "clarify_communication" "c"

/-- The window after `k` clarification rounds. -/
def c1State : Nat → List Msg
  | 0 => [userMsg "hello"]
  | k + 1 => c1State k ++ [clarResp, clarToolMsg]

/-- Call collection distributes over window concatenation. -/
theorem callsIn_append (a b : List Msg) : callsIn (a ++ b) = callsIn a ++ callsIn b := by
  simp [callsIn]

/-- Every call accumulated by the C1 run is the exempt clarification
capability. -/
theorem c1State_calls (k : Nat) :
    ∀ tc ∈ callsIn (c1State k), tc.name = "clarify_communication" := by
  induction k with
  | zero =>
    intro tc h
    simp [c1State, callsIn, userMsg] at h
  | succ k ih =>
    intro tc h
    rw [show c1State (k + 1) = c1State k ++ [clarResp, clarToolMsg] from rfl,
      callsIn_append] at h
    rcases List.mem_append.mp h with h1 | h2
    · exact ih tc h1
    · have heq : callsIn [clarResp, clarToolMsg] =
          [ToolCall.mk "clarify_communication" [("text", "hi")] "c"] := rfl
      rw [heq] at h2
      rw [List.mem_singleton.mp h2]
  
/-- Every window entry of the C1 run is the user message, the
clarification request, or its tool result. -/
theorem c1State_mem (k : Nat) :
    ∀ m ∈ c1State k, m = userMsg "hello" ∨ m = clarResp ∨ m = clarToolMsg := by
  induction k with
  | zero =>
    intro m h
    simp [c1State] at h
    exact Or.inl h
  | succ k ih =>
    intro m h
    rw [show c1State (k + 1) = c1State k ++ [clarResp, clarToolMsg] from rfl] at h
    rcases List.mem_append.mp h with h1 | h2
    · exact ih m h1
    · simp at h2
      rcases h2 with h2 | h2
      · exact Or.inr (Or.inl h2)
      · exact Or.inr (Or.inr h2)

/-- The last entry of the C1 window is the user message initially and the
clarification tool result afterwards. -/
theorem c1State_getLast (k : Nat) :
    (c1State k).getLast? = some (if k = 0 then userMsg "hello" else clarToolMsg) := by
  cases k with
  | zero => rfl
  | succ k =>
    rw [show c1State (k + 1) = c1State k ++ [clarResp, clarToolMsg] from rfl]
    rw [show c1State k ++ [clarResp, clarToolMsg] =
      (c1State k ++ [clarResp]) ++ [clarToolMsg] from by simp]
    rw [List.getLast?_concat]
    simp

/-- A successful backward scan returns a suffix of the window. -/
theorem scopeAfterLastHuman_suffix (l s : List Msg)
    (h : scopeAfterLastHuman l = some s) : ∃ pre, l = pre ++ s := by
  induction l generalizing s with
  | nil => cases h
  | cons m t ih =>
    simp only [scopeAfterLastHuman] at h
    cases hs : scopeAfterLastHuman t with
    | some s2 =>
      rw [hs] at h
      obtain ⟨pre, hpre⟩ := ih s2 hs
      injection h with h1
      subst h1
      exact ⟨m :: pre, by rw [List.cons_append, ← hpre]⟩
    | none =>
      rw [hs] at h
      by_cases hr : m.role = .user
      · rw [if_pos hr] at h
        injection h with h1
        exact ⟨[], by rw [List.nil_append, h1]⟩
      · rw [if_neg hr] at h
        cases h

/-- A call inside the guard's turn scope occurs in the full window. -/
theorem turnScope_calls_sub (messages : List Msg) (tc : ToolCall)
    (h : tc ∈ callsIn (turnScope messages)) : tc ∈ callsIn messages := by
  unfold turnScope at h
  cases hs : scopeAfterLastHuman messages with
  | some s =>
    rw [hs] at h
    obtain ⟨pre, hpre⟩ := scopeAfterLastHuman_suffix messages s hs
    rw [hpre, callsIn_append]
    exact List.mem_append_right _ h
  | none => rwa [hs] at h

/-- The entry loop check never fires on a window whose calls are all
exempt capabilities. -/
theorem entry_loop_fires_eq_false (messages : List Msg)
    (h : ∀ tc ∈ callsIn messages, NEVER_LOOP_BLOCK.contains tc.name = true) :
    entry_loop_fires messages = false := by
  unfold entry_loop_fires
  by_cases hl : 3 ≤ messages.length
  · rw [if_pos hl]
    have hany : ∀ (scope : List Msg),
        (∀ tc ∈ callsIn scope, tc ∈ callsIn messages) →
        ((callsIn scope).map sig).any
          (fun p => decide (2 ≤ ((callsIn scope).map sig).count p) &&
            !(NEVER_LOOP_BLOCK.contains p.1)) = false := by
      intro scope hsub
      rw [List.any_eq_false]
      intro p hp
      obtain ⟨tc, htc, hptc⟩ := List.mem_map.mp hp
      have hname : NEVER_LOOP_BLOCK.contains p.1 = true := by
        rw [← hptc]
        exact h tc (hsub tc htc)
      rw [hname]
      simp
    cases hs : scopeAfterLastHuman messages with
    | some s =>
      simp only [hs]
      obtain ⟨pre, hpre⟩ := scopeAfterLastHuman_suffix messages s hs
      rw [hany s (fun tc htc => by
        rw [hpre, callsIn_append]; exact List.mem_append_right _ htc)]
      rw [Bool.and_false]
    | none =>
      simp only [hs]
      rw [hany (messages.drop (messages.length - 6)) (fun tc htc => by
        have hcs : callsIn messages =
            callsIn (messages.take (messages.length - 6)) ++
              callsIn (messages.drop (messages.length - 6)) := by
          rw [← callsIn_append, List.take_append_drop]
        rw [hcs]
        exact List.mem_append_right _ htc)]
      rw [Bool.and_false]
  · rw [if_neg hl]

end Socializer

namespace Socializer

/-- A window whose calls are all named differently from `tavily_search`
accumulates a zero `tavily_search` count in its scope. -/
theorem scopeNames_tavily_zero (messages : List Msg)
    (h : ∀ tc ∈ callsIn messages, tc.name = "clarify_communication") :
    (scopeNames messages).count "tavily_search" = 0 := by
  rw [List.count_eq_zero]
  intro hmem
  obtain ⟨tc, htc, hname⟩ := List.mem_map.mp hmem
  have := h tc (turnScope_calls_sub messages tc htc)
  rw [this] at hname
  exact absurd hname (by decide)

/-- On every reachable C1 window, the chatbot approves the clarification
request unchanged. -/
theorem c1_chatbot_step (k : Nat) :
    chatbot_step (c1State k) clarResp = [clarResp] := by
  have hcalls := c1State_calls k
  have hfires : entry_loop_fires (c1State k) = false :=
    entry_loop_fires_eq_false _ (fun tc htc => by rw [hcalls tc htc]; rfl)
  have hpost : post_decision (c1State k) clarResp = .approved := by
    unfold post_decision
    have hne : clarResp.toolCalls.isEmpty = false := rfl
    rw [hne]
    simp only [Bool.false_eq_true, if_false]
    have htav : ¬ 2 ≤ (scopeNames (c1State k)).count "tavily_search" := by
      rw [scopeNames_tavily_zero _ hcalls]
      omega
    rw [if_neg htav]
    refine checkDup_approved_of_exempt _ _ _ (fun tc htc => ?_)
    have : tc = ToolCall.mk "clarify_communication" [("text", "hi")] "c" := by
      simpa [clarResp, assistantCall] using htc
    rw [this]
    decide
  cases k with
  | zero =>
    unfold chatbot_step
    have hl : (c1State 0).getLast? = some (userMsg "hello") := rfl
    simp only [hl, hfires, Bool.false_eq_true, if_false]
    rw [show (userMsg "hello").toolCalls = [] from rfl]
    simp only [List.isEmpty_nil, Bool.not_true, Bool.false_eq_true, if_false]
    rw [if_neg (show ¬ (userMsg "hello").role = Role.assistant from by simp [userMsg])]
    rw [hpost]
    rfl
  | succ k =>
    unfold chatbot_step
    have hl : (c1State (k + 1)).getLast? = some clarToolMsg := by
      rw [c1State_getLast]
      simp
    simp only [hl, hfires, Bool.false_eq_true, if_false]
    rw [show clarToolMsg.toolCalls = [] from rfl]
    simp only [List.isEmpty_nil, Bool.not_true, Bool.false_eq_true, if_false]
    rw [if_neg (show ¬ clarToolMsg.role = Role.assistant from by
      simp [clarToolMsg, toolMsg])]
    rw [hpost]
    rfl

/-- Every C1 round dispatches the clarification call and appends its
result: the loop advances to the next window state. -/
theorem c1_round (k : Nat) :
    round_step clarOracle id clarReg (c1State k) = (c1State (k + 1), true) := by
  unfold round_step
  have ho : clarOracle (c1State k) = clarResp := rfl
  rw [ho, c1_chatbot_step k]
  have hl : (c1State k ++ [clarResp]).getLast? = some clarResp :=
    List.getLast?_concat _
  simp only [hl]
  rw [show clarResp.toolCalls = [ToolCall.mk "clarify_communication" [("text", "hi")] "c"]
    from rfl]
  simp only [List.isEmpty_cons, Bool.not_false, if_true]
  have hout : tool_node_outputs id clarReg clarResp = [clarToolMsg] := rfl
  rw [hout]
  rw [show c1State k ++ [clarResp] ++ [clarToolMsg] = c1State (k + 1) from by
    rw [show c1State (k + 1) = c1State k ++ [clarResp, clarToolMsg] from rfl]
    simp]

/-- Claim C1, amended.  The graph loop has NO hard round cap: with a model
that requests a guard-exempt capability on every round, the controller
performs exactly `n` tool-dispatch cycles in `n` rounds, for every `n` —
in particular more than 5 — and the window never contains any canned
"unable to complete" apology: every message is the user input, the
model's clarification request, or its tool result.  Termination rests
solely on the duplicate/loop guard (which exempt capabilities bypass) and
the external graph runtime's recursion limit. -/
theorem C1_no_round_cap (n : Nat) :
    (run_rounds clarOracle id clarReg n [userMsg "hello"]).2 = n
    ∧ ∀ m ∈ (run_rounds clarOracle id clarReg n [userMsg "hello"]).1,
        m = userMsg "hello" ∨ m = clarResp ∨ m = clarToolMsg := by
  have key : ∀ (n k : Nat),
      run_rounds clarOracle id clarReg n (c1State k) = (c1State (k + n), n) := by
    intro n
    induction n with
    | zero => intro k; simp [run_rounds]
    | succ n ih =>
      intro k
      show (let r := round_step clarOracle id clarReg (c1State k);
        if r.2 then
          let rest := run_rounds clarOracle id clarReg n r.1
          (rest.1, rest.2 + 1)
        else (r.1, 0)) = (c1State (k + (n + 1)), n + 1)
      rw [c1_round k]
      simp only [if_true]
      rw [ih (k + 1)]
      rw [show k + 1 + n = k + (n + 1) from by omega]
  have h0 : c1State 0 = [userMsg "hello"] := rfl
  constructor
  · rw [← h0, key n 0]
  · rw [← h0, key n 0]
    simpa using c1State_mem n

/-- Claim C1, counterexample.  The model requests one (clarification) call
on every round; after 6 rounds the controller has performed 6 > 5
tool-dispatch cycles, has not forced DONE, and no "unable to complete"
apology exists anywhere in the window — the claimed hard 5-round cap does
not exist in `build_graph`'s loop. -/
theorem C1_counterexample :
    clarResp.toolCalls.length = 1
    ∧ (run_rounds clarOracle id clarReg 6 [userMsg "hello"]).2 = 6
    ∧ ∀ m ∈ (run_rounds clarOracle id clarReg 6 [userMsg "hello"]).1,
        m = userMsg "hello" ∨ m = clarResp ∨ m = clarToolMsg := by
  refine ⟨by decide, by decide, by decide⟩

end Socializer

namespace Socializer

/-- Witness for the amended C1 at six rounds: six dispatch cycles happen
and the user message (present in the final window) is among the three
known messages. -/
theorem C1_no_round_cap_witness :
    (run_rounds clarOracle id clarReg 6 [userMsg "hello"]).2 = 6
    ∧ (userMsg "hello" = userMsg "hello" ∨ userMsg "hello" = clarResp ∨
        userMsg "hello" = clarToolMsg) :=
  ⟨(C1_no_round_cap 6).1, (C1_no_round_cap 6).2 (userMsg "hello") (by decide)⟩

end Socializer
